import Mathlib

/-!
# Gatekeeper: session tokens over a signed claim set and an expiring registry

A shallow embedding of `jwt/jwt.go` (the session orchestrator), of
`persistance/redis/set.go` and `persistance/redis/errors.go` (the expiring
registry kept in a Redis sorted set) and of the error values of `errors.go`
and `persistance/errors.go`.

Conventions of the embedding.

* A Go `error` is an `Option GoErr` (`none` is `nil`); a Go function that
  returns `(value, error)` returns a `Res`, which also records a run-time panic
  (a failed type assertion, an unimplemented backend method).
* Every operation observes one clock reading `now`, in nanoseconds since the
  epoch (`time.Now()`); `unix` is `Time.Unix()`. A `time.Duration` is an `Int`
  number of nanoseconds.
* JSON numbers and sorted-set scores are `float64` in the source.  The values
  that occur are second counts, which `float64` holds exactly, so they are
  integers here; a score is an integer or `+Inf`.
* The Redis server behind the go-redis client is explicit state: the sorted set
  stored under every key, and an optional `fault`, the error with which the
  connection answers every command while it is set.
* The JWT codec and the UUID library are outside the repository; they are the
  fields of `Ext`, and the properties assumed of them are spelled out in
  `Ext.Lawful`.
* A configured storage is the Redis backend: the in-memory backend of
  `persistance/memory/memory.go` has no `StrSet` (the method panics).
-/

namespace Gatekeeper

/-! ## Errors (`errors.go`, `persistance/errors.go`) -/

/-- Package-level error values created with `errors.New`; Go compares them by identity. -/
inductive Sentinel
  | unexpectedToken
  | notFound
  | expired
  | noStorage
  | dataNotValid
  | noSuchKeyFound
  | notStrSet
  deriving DecidableEq, Repr

/-- Message carried by each package-level error. -/
def Sentinel.text : Sentinel → String
  | .unexpectedToken => "given token violates the storage token format"
  | .notFound => "no such token registered or already deleted"
  | .expired => "token expired"
  | .noStorage => "doesn't have any session storage"
  | .dataNotValid => "providing data not valid"
  | .noSuchKeyFound => "no such key found"
  | .notStrSet => "not a strings set"

/-- A Go error value: a package-level sentinel, an error that only carries a
message (`fmt.Errorf` without `%w`, or an error of an outside library), or
`fmt.Errorf(pfx + "%w" + sfx, inner)`, which wraps `inner`. -/
inductive GoErr
  | sentinel (s : Sentinel)
  | errorf (msg : String)
  | wrap (pfx : String) (inner : GoErr) (sfx : String)
  deriving DecidableEq, Repr

/-- The `Error()` method: the message of an error. -/
def GoErr.Error : GoErr → String
  | .sentinel s => s.text
  | .errorf m => m
  | .wrap p e s => p ++ e.Error ++ s

/-- The `errors.Is(e, target)` test for a sentinel target: follows the `%w` chain. -/
def GoErr.Is : GoErr → Sentinel → Bool
  | .sentinel s, t => decide (s = t)
  | .errorf _, _ => false
  | .wrap _ e _, t => e.Is t

def ErrUnexpectedToken : GoErr := .sentinel .unexpectedToken
def ErrNotFound : GoErr := .sentinel .notFound
def ErrExpired : GoErr := .sentinel .expired
def ErrNoStorage : GoErr := .sentinel .noStorage
def ErrDataNotValid : GoErr := .sentinel .dataNotValid
def ErrNoSuchKeyFound : GoErr := .sentinel .noSuchKeyFound
def ErrNotStrSet : GoErr := .sentinel .notStrSet

/-- Go `NoKeyError`: formats `ErrNoSuchKeyFound` with `%s`, so the result carries
the message only and does not wrap the sentinel. -/
def NoKeyError (key : String) : GoErr :=
  .errorf (ErrNoSuchKeyFound.Error ++ " - " ++ key)

/-- Go `fmt.Errorf(pfx + "%w", err)`: wraps `err`; a nil operand is only printed. -/
def Errorf (pfx : String) (err : Option GoErr) : GoErr :=
  match err with
  | some e => .wrap pfx e ""
  | none => .errorf (pfx ++ "%!w(<nil>)")

/-- Outcome of a Go call returning `(value, error)`; `panic` is a run-time panic. -/
inductive Res (α : Type)
  | ok (a : α)
  | err (e : GoErr)
  | panic (msg : String)

/-- The call failed with an error `e` for which `errors.Is(e, t)` holds. -/
def Res.failsWith {α : Type} : Res α → Sentinel → Bool
  | .err e, t => e.Is t
  | _, _ => false

/-! ## Time -/

/-- Go `Time.Unix()`: whole seconds of an instant given in nanoseconds. -/
def unix (t : Int) : Int := t / 1000000000

/-- Go `time.Hour` in nanoseconds. -/
def Hour : Int := 3600000000000

/-! ## The Redis sorted sets behind the go-redis client -/

/-- A sorted-set score: a finite number or `+Inf`. -/
inductive Score
  | fin (n : Int)
  | posInf
  deriving DecidableEq, Repr

/-- A score-range bound as written in a command: `-inf`, a number (inclusive), `+inf`. -/
inductive Bound
  | negInf
  | num (n : Int)
  | posInf
  deriving DecidableEq, Repr

/-- Lower-bound test `lo ≤ s`. -/
def Bound.below : Bound → Score → Bool
  | .negInf, _ => true
  | .num a, .fin n => decide (a ≤ n)
  | .num _, .posInf => true
  | .posInf, .fin _ => false
  | .posInf, .posInf => true

/-- Upper-bound test `s ≤ hi`. -/
def Bound.above : Bound → Score → Bool
  | .posInf, _ => true
  | .num b, .fin n => decide (n ≤ b)
  | .num _, .posInf => false
  | .negInf, _ => false

/-- The score lies in the closed range `[lo, hi]`. -/
def Score.inRange (s : Score) (lo hi : Bound) : Bool := lo.below s && hi.above s

/-- The comparison `s >= float64(n)`. -/
def Score.geInt : Score → Int → Bool
  | .fin m, n => decide (n ≤ m)
  | .posInf, _ => true

/-- Order of a sorted set: by score, then by member. -/
def zle (a b : String × Score) : Bool :=
  match a.2, b.2 with
  | .fin m, .fin n => decide (m < n) || (decide (m = n) && decide (a.1 ≤ b.1))
  | .fin _, .posInf => true
  | .posInf, .fin _ => false
  | .posInf, .posInf => decide (a.1 ≤ b.1)

/-- A sorted set: its members with their scores, each member at most once. -/
abbrev ZSet := List (String × Score)

/-- The Redis server as seen through one client: the sorted set under every key
(an absent key is an empty set) and the fault, if any, with which every command
is answered. -/
structure Redis where
  zsets : String → ZSet
  fault : Option String

/-- Replace the sorted set stored under `key`. -/
def Redis.put (r : Redis) (key : String) (z : ZSet) : Redis :=
  ⟨fun k => if k = key then z else r.zsets k, r.fault⟩

/-- Go `redis.Nil`, the reply for a missing key or member. -/
def redisNil : GoErr := .errorf "redis: nil"

/-- Go `ZREMRANGEBYSCORE key min max`: drops the members whose score is in `[min, max]`. -/
def Redis.ZRemRangeByScore (r : Redis) (key : String) (min max : Bound) :
    Except GoErr Nat × Redis :=
  match r.fault with
  | some m => (.error (.errorf m), r)
  | none =>
    let z := r.zsets key
    let keep := z.filter (fun e => !(e.2.inRange min max))
    (.ok (z.length - keep.length), r.put key keep)

/-- Go `ZADD key score member`: inserts the member, or updates its score. -/
def Redis.ZAdd (r : Redis) (key : String) (score : Score) (member : String) :
    Except GoErr Nat × Redis :=
  match r.fault with
  | some m => (.error (.errorf m), r)
  | none =>
    let z := r.zsets key
    let rest := z.filter (fun e => !(e.1 == member))
    (.ok (if z.any (fun e => e.1 == member) then 0 else 1), r.put key ((member, score) :: rest))

/-- Go `ZREM key member`: removes the member; the reply is the number removed and
an absent member is not an error. -/
def Redis.ZRem (r : Redis) (key : String) (member : String) : Except GoErr Nat × Redis :=
  match r.fault with
  | some m => (.error (.errorf m), r)
  | none =>
    let z := r.zsets key
    let rest := z.filter (fun e => !(e.1 == member))
    (.ok (z.length - rest.length), r.put key rest)

/-- Go `ZSCORE key member`: the score of the member, `redis.Nil` when it is absent. -/
def Redis.ZScore (r : Redis) (key : String) (member : String) : Except GoErr Score × Redis :=
  match r.fault with
  | some m => (.error (.errorf m), r)
  | none =>
    match (r.zsets key).find? (fun e => e.1 == member) with
    | some e => (.ok e.2, r)
    | none => (.error redisNil, r)

/-- Go `ZRANGEBYSCORE key min max LIMIT 0 count`: the members with score in
`[min, max]`, in set order, at most `count` of them. -/
def Redis.ZRangeByScore (r : Redis) (key : String) (min max : Bound) (count : Nat) :
    Except GoErr (List String) × Redis :=
  match r.fault with
  | some m => (.error (.errorf m), r)
  | none =>
    let hit := (r.zsets key).filter (fun e => e.2.inRange min max)
    (.ok (((hit.insertionSort (fun a b => zle a b = true)).take count).map (fun e => e.1)), r)

/-! ## `persistance/redis/errors.go` -/

/-- Go `strings.Contains`. -/
def stringsContains (s sub : String) : Bool :=
  s.data.tails.any (fun t => sub.data.isPrefixOf t)

/-- Go `isNilErr` checks if error is nil. -/
def isNilErr (err : Option GoErr) : Bool :=
  match err with
  | none => false
  | some e => e.Error == "redis: nil"

/-- Go `isWrongOpErr` checks if type is wrong. -/
def isWrongOpErr (err : Option GoErr) : Bool :=
  match err with
  | none => false
  | some e => stringsContains e.Error "wrong type"

/-- Go `coerceRedisErr` process redis error to return. -/
def coerceRedisErr (err : Option GoErr) (key : String) : Option GoErr :=
  match err with
  | none => none
  | some e =>
    if isNilErr (some e) then some (NoKeyError key)
    else if isWrongOpErr (some e) then some ErrNotStrSet
    else some e

/-- The error of a command reply (`cmd.Err()`). -/
def cmdErr {α : Type} : Except GoErr α → Option GoErr
  | .ok _ => none
  | .error e => some e

/-! ## `persistance/redis/set.go` -/

/-- Go `clientSetWrapper`: the client together with the key of one sorted set. -/
structure clientSetWrapper where
  client : Redis
  setKey : String

/-- Go `StrSet` returns the strings set associated with the given key. -/
def Redis.StrSet (c : Redis) (key : String) : clientSetWrapper := ⟨c, key⟩

/-- Go `AddExpire` add string element to set with expire value. -/
def clientSetWrapper.AddExpire (c : clientSetWrapper) (val : String) (ttl : Int) (now : Int) :
    Option GoErr × Redis :=
  -- cleanup expired tokens
  match c.client.ZRemRangeByScore c.setKey .negInf (.num (unix now - 1)) with
  | (.error e, r) => (some (Errorf "add expire: " (coerceRedisErr (some e) c.setKey)), r)
  | (.ok _, r) =>
    let score := if ttl = -1 then Score.posInf else Score.fin (unix (now + ttl))
    let res := r.ZAdd c.setKey score val
    (coerceRedisErr (cmdErr res.1) c.setKey, res.2)

/-- Go `Add` string element to set without expire value. -/
def clientSetWrapper.Add (c : clientSetWrapper) (val : String) (now : Int) :
    Option GoErr × Redis :=
  c.AddExpire val (-1) now

/-- Go `Remove` remove element from string set. -/
def clientSetWrapper.Remove (c : clientSetWrapper) (val : String) : Option GoErr × Redis :=
  let cmd := c.client.ZRem c.setKey val
  (coerceRedisErr (cmdErr cmd.1) c.setKey, cmd.2)

/-- Go `Check` checks element in string set. -/
def clientSetWrapper.Check (c : clientSetWrapper) (val : String) (now : Int) :
    (Bool × Option GoErr) × Redis :=
  match c.client.ZScore c.setKey val with
  | (.error e, r) =>
    ((false, some (Errorf "check storage key: " (coerceRedisErr (some e) c.setKey))), r)
  | (.ok v, r) => ((v.geInt (unix now), none), r)

/-- Go `List` all elements in string set. -/
def clientSetWrapper.List (c : clientSetWrapper) (now : Int) :
    (List String × Option GoErr) × Redis :=
  match c.client.ZRangeByScore c.setKey (.num (unix now)) .posInf 100 with
  | (.error e, r) =>
    (([], some (Errorf "storage element list: " (coerceRedisErr (some e) c.setKey))), r)
  | (.ok v, r) => ((v, none), r)

/-! ## Values and maps -/

/-- Go `uuid.UUID`: a 128-bit identifier. -/
structure UUID where
  bits : Nat
  deriving DecidableEq, Repr

/-- The dynamic values (`interface{}`) that occur in claim and data maps:
the JSON-decoded forms `nil`, `bool`, `float64`, `string`, and the Go-side
forms `int64` (as produced by `Time.Unix()`) and `uuid.UUID`. -/
inductive Val
  | null
  | bool (b : Bool)
  | float64 (x : Int)
  | str (s : String)
  | int64 (n : Int)
  | uuid (u : UUID)
  deriving DecidableEq, Repr

/-- A Go `map[string]interface{}` (also `jwt.MapClaims`). -/
abbrev GoMap := String → Option Val

/-- The assignment `m[k] = v`. -/
def GoMap.set (m : GoMap) (k : String) (v : Val) : GoMap :=
  fun q => if q = k then some v else m q

/-! ## The outside libraries -/

/-- The capabilities taken from outside the repository, over wire tokens `Tok`
(`sessions.Token`, a byte string): the JWT codec (`token.SignedString`,
`jwt.Parse` with its key function and the clock it validates against) and the
UUID text form (`UUID.String`, `uuid.FromString`). -/
structure Ext (Tok : Type) where
  SignedString : String → GoMap → List Nat → Except GoErr Tok
  Parse : Tok → (String → Except GoErr (List Nat)) → Int → Except GoErr GoMap
  uuidString : UUID → String
  FromString : String → Except GoErr UUID

/-- The value is JSON-native: `nil`, a `bool`, a `float64` or a `string`, the
forms that the JSON payload of a token decodes to. -/
def Val.isJson : Val → Bool
  | .null => true
  | .bool _ => true
  | .float64 _ => true
  | .str _ => true
  | .int64 _ => false
  | .uuid _ => false

/-- The form in which a value comes back from the JSON payload of a token: an
integer as a `float64`, a UUID as its text `text u`; JSON-native values are
unchanged.  The source relies on both: `extractTimestamp` asserts `float64` on
the `int64` that `Create` stored, and `Get` asserts `string` on the stored
`uuid.UUID`.  The conversion of an integer is exact below 2^53 in magnitude,
which covers every second count; the development applies it only to values
in that range (the `iat` and `exp` that `Create` stores, small integers in the
concrete runs). -/
def jsonVal (text : UUID → String) : Val → Val
  | .int64 n => .float64 n
  | .uuid u => .str (text u)
  | v => v

/-- The JSON image of a claim map. -/
def jsonImage (text : UUID → String) (m : GoMap) : GoMap :=
  fun k => (m k).map (jsonVal text)

/-! ## `jwt/jwt.go` -/

def tokenPersisIDKey : String := "persistKey"
def expireAtKey : String := "exp"
def issuedAtKey : String := "iat"
def signingMethod : String := "HS256"

/-- Go `SessionJwt` implements the sessions interface using the jwt-token mechanism;
`storage` is `none` for a nil storage and else holds the state of the backend. -/
structure SessionJwt where
  signingMethod : String
  secretKey : List Nat
  expire : Int
  storage : Option Redis

/-- Go `NewJwtSession` creates new jwt storage. -/
def NewJwtSession (secret : List Nat) (expire : Int) (storage : Option Redis) : SessionJwt :=
  ⟨signingMethod, secret, expire, storage⟩

/-- The session with its storage state replaced. -/
def SessionJwt.withStorage (j : SessionJwt) (r : Redis) : SessionJwt :=
  ⟨j.signingMethod, j.secretKey, j.expire, some r⟩

/-- Go `formatStorageKey` create key for NoSql storage. -/
def formatStorageKey (uuid : String) : String :=
  "user:" ++ uuid ++ ":sessions"

/-- The key function handed to `jwt.Parse` by `extractClaims`. -/
def SessionJwt.keyFunc (j : SessionJwt) (method : String) : Except GoErr (List Nat) :=
  if method ≠ j.signingMethod then
    .error (.wrap "extract claims: " ErrUnexpectedToken (": invalid signing method: " ++ method))
  else .ok j.secretKey

/-- Go `extractClaims` extract token claims from session token. -/
def SessionJwt.extractClaims {Tok : Type} (x : Ext Tok) (j : SessionJwt) (token : Tok)
    (now : Int) : Except GoErr GoMap :=
  match x.Parse token j.keyFunc now with
  | .error err => .error (.wrap "extract claims: " err "")
  | .ok claims => .ok claims

/-- Go `extractTimestamp` extract token timestamp from its claims. -/
def extractTimestamp (claims : GoMap) (key : String) : Except GoErr Int :=
  match claims key with
  | some (.float64 expireAt) => .ok expireAt
  | _ => .error (.wrap "extract timestamp: " ErrUnexpectedToken "")

/-- Go `extractTokenID` extract token id from its claims. -/
def extractTokenID (claims : GoMap) : Except GoErr String :=
  match claims tokenPersisIDKey with
  | some (.str tokenID) => .ok tokenID
  | some _ => .error (.wrap "exctract token ID: " ErrUnexpectedToken "")
  | none => .error (.wrap "exctract token ID: " ErrUnexpectedToken "")

/-- The claim set that `Create` signs: the data, `iat`, `exp`, and, with a
storage, the token id under `persistKey`. -/
def SessionJwt.claimsFor (j : SessionJwt) (data : GoMap) (now : Int)
    (tokenID : Option String) : GoMap :=
  -- copy data
  let claims : GoMap := data
  -- populate
  let claims := claims.set issuedAtKey (.int64 (unix now))
  let claims :=
    if (data "source").isSome then claims.set expireAtKey (.int64 (unix (now + 999999 * Hour)))
    else claims.set expireAtKey (.int64 (unix (now + j.expire)))
  match tokenID with
  | some id => claims.set tokenPersisIDKey (.str id)
  | none => claims

/-- The last step of `Create`: generate the token string. -/
def SessionJwt.sign {Tok : Type} (x : Ext Tok) (j : SessionJwt) (claims : GoMap) : Res Tok :=
  match x.SignedString j.signingMethod claims j.secretKey with
  | .ok tokenString => .ok tokenString
  | .error err => .err err

/-- Go `Create` generates new jwt token and return it as a signed string.
`newV4` is the outcome of `uuid.NewV4()`. -/
def SessionJwt.Create {Tok : Type} (x : Ext Tok) (j : SessionJwt) (data : GoMap) (now : Int)
    (newV4 : Except GoErr UUID) : Res Tok × SessionJwt :=
  match j.storage with
  | none => (j.sign x (j.claimsFor data now none), j)
  | some st =>
    -- if token storage is defined, use it to store token session
    match newV4 with
    | .error err => (.err (.wrap "create token UUID: " err ""), j)
    | .ok tokenID =>
      match data "uuid" with
      | none => (.err (.wrap "create token: " ErrDataNotValid " - no such user UUID"), j)
      | some (.uuid userID) =>
        let key := formatStorageKey (x.uuidString userID)
        let res := (st.StrSet key).AddExpire (x.uuidString tokenID) j.expire now
        match res.1 with
        | some err => (.err (.wrap "create token: " err ""), j.withStorage res.2)
        | none =>
          (j.sign x (j.claimsFor data now (some (x.uuidString tokenID))), j.withStorage res.2)
      | some _ => (.panic "interface conversion: interface {} is not uuid.UUID", j)

/-- The keys that `Get` leaves out of the returned data. -/
def technicalKey (key : String) : Bool :=
  key == expireAtKey || key == issuedAtKey || key == tokenPersisIDKey

/-- The last step of `Get`: copy payload values except technical one, the
value under `uuid` parsed back into a `uuid.UUID`. -/
def copyPayload {Tok : Type} (x : Ext Tok) (claims : GoMap) : Res GoMap :=
  match claims "uuid" with
  | none => .ok (fun key => if technicalKey key then none else claims key)
  | some (.str s) =>
    match x.FromString s with
    | .error err => .err (.wrap "format token data: " err "")
    | .ok u =>
      .ok (fun key =>
        if technicalKey key then none
        else if key = "uuid" then some (.uuid u) else claims key)
  | some _ => .panic "interface conversion: interface {} is not string"

/-- Go `Get` validates token, checks expiration, checks storage for such token
if it present and return data form given token. -/
def SessionJwt.Get {Tok : Type} (x : Ext Tok) (j : SessionJwt) (token : Tok) (now : Int) :
    Res GoMap × SessionJwt :=
  match j.extractClaims x token now with
  | .error err => (.err (.wrap "get token: " err ""), j)
  | .ok claims =>
    -- check token expired
    match extractTimestamp claims expireAtKey with
    | .error err => (.err (.wrap "validate token: " err ""), j)
    | .ok expireAtTs =>
      if unix now > expireAtTs then (.err (.wrap "validate token: " ErrExpired ""), j)
      else
        -- if token storage defined, check token
        match j.storage with
        | none => (copyPayload x claims, j)
        | some st =>
          match extractTokenID claims with
          | .error err => (.err (.wrap "check token: " err ""), j)
          | .ok tokenID =>
            -- lookup token
            match claims "uuid" with
            | some (.str uuid) =>
              let key := formatStorageKey uuid
              let res := (st.StrSet key).Check tokenID now
              if !res.1.1 || res.1.2 == some ErrNoSuchKeyFound then
                (.err ErrNotFound, j.withStorage res.2)
              else
                match res.1.2 with
                | some err => (.err (.wrap "lookup token: " err ""), j.withStorage res.2)
                | none => (copyPayload x claims, j.withStorage res.2)
            | _ => (.panic "interface conversion: interface {} is not string", j)

/-- Go `Delete` token associated id in storage if it present. -/
def SessionJwt.Delete {Tok : Type} (x : Ext Tok) (j : SessionJwt) (token : Tok) (now : Int) :
    Res Unit × SessionJwt :=
  match j.storage with
  -- if there is no session storage, jwt token can't be deleted
  | none => (.err (.wrap "delete token: " ErrNoStorage ""), j)
  | some st =>
    -- extract claims
    match j.extractClaims x token now with
    | .error err => (.err (.wrap "delete token: " err ""), j)
    | .ok claims =>
      -- extract token id
      match extractTokenID claims with
      | .error err => (.err (.wrap "delete token: " err ""), j)
      | .ok tokenID =>
        -- remove it from tokens storage
        match claims "uuid" with
        | some (.str uuid) =>
          let key := formatStorageKey uuid
          let res := (st.StrSet key).Remove tokenID
          match res.1 with
          | some err =>
            if err = ErrNoSuchKeyFound then
              (.err (.wrap "delete token: " ErrNotFound ""), j.withStorage res.2)
            else (.err err, j.withStorage res.2)
          | none => (.ok (), j.withStorage res.2)
        | _ => (.panic "interface conversion: interface {} is not string", j)

/-- Go `RefreshToken` refresh given token. -/
def SessionJwt.RefreshToken {Tok : Type} (x : Ext Tok) (j : SessionJwt) (oldToken : Tok)
    (now : Int) (newV4 : Except GoErr UUID) : Res Tok × SessionJwt :=
  match j.Get x oldToken now with
  | (.err err, j1) => (.err (.wrap "refresh token: " err ""), j1)
  | (.panic msg, j1) => (.panic msg, j1)
  | (.ok data, j1) =>
    match j1.Delete x oldToken now with
    | (.err err, j2) => (.err (.wrap "refresh token: " err ""), j2)
    | (.panic msg, j2) => (.panic msg, j2)
    | (.ok _, j2) => j2.Create x data now newV4

/-! ## The contract of the outside libraries -/

/-- The time test that the JWT library applies to one decoded claim: a claim
that is absent, not a number, or zero is not tested. -/
def timeClaimOk (claims : GoMap) (key : String) (test : Int → Bool) : Bool :=
  match extractTimestamp claims key with
  | .ok v => decide (v = 0) || test v
  | .error _ => true

/-- The validation that the JWT library runs on the decoded claims while it
parses a token (`MapClaims.Valid`): `exp` must not lie before now, `iat` and
the not-before claim `nbf` must not lie after now, in whole seconds. -/
def claimsValid (claims : GoMap) (now : Int) : Bool :=
  timeClaimOk claims expireAtKey (fun e => decide (unix now ≤ e)) &&
    timeClaimOk claims issuedAtKey (fun i => decide (i ≤ unix now)) &&
    timeClaimOk claims "nbf" (fun n => decide (n ≤ unix now))

/-- The contract assumed of the codec and of the UUID library: signing never
fails; a signed token, parsed under a key function that yields the signing key,
gives back the JSON image of its claims at every time at which the claims pass
the library's validation; the parser returns only claims that pass the
validation, and only JSON-native values; and the text of a UUID parses back to
it. -/
structure Ext.Lawful {Tok : Type} (x : Ext Tok) : Prop where
  sign_total : ∀ m claims key, ∃ t, x.SignedString m claims key = .ok t
  parse_signed : ∀ m claims key t kf now,
    x.SignedString m claims key = .ok t → kf m = .ok key →
    claimsValid (jsonImage x.uuidString claims) now = true →
    x.Parse t kf now = .ok (jsonImage x.uuidString claims)
  parse_valid : ∀ t kf now claims, x.Parse t kf now = .ok claims →
    claimsValid claims now = true
  parse_json : ∀ t kf now claims, x.Parse t kf now = .ok claims →
    ∀ k v, claims k = some v → v.isJson = true
  uuid_text : ∀ u, x.FromString (x.uuidString u) = .ok u

/-! ## A reference instance of the outside libraries -/

/-- A transparent wire token: the signing method, the key and the claims. -/
structure RefTok where
  method : String
  key : List Nat
  claims : GoMap

/-- Text of a UUID in the reference instance: `bits` strokes. -/
def refText (u : UUID) : String := ⟨List.replicate u.bits 'x'⟩

/-- Reference instance: tokens are transparent, parsing checks the method
through the key function, the key, and the `exp`, `iat` and `nbf` claims the
way the JWT library does (a zero claim is not checked); a UUID is written in
unary. -/
def refExt : Ext RefTok where
  SignedString := fun m claims key => .ok ⟨m, key, claims⟩
  Parse := fun t kf now =>
    match kf t.method with
    | .error e => .error (.errorf ("key is invalid: " ++ e.Error))
    | .ok key =>
      if key ≠ t.key then .error (.errorf "signature is invalid")
      else if !(timeClaimOk (jsonImage refText t.claims) expireAtKey
          (fun e => decide (unix now ≤ e)))
      then .error (.errorf "Token is expired")
      else if !(timeClaimOk (jsonImage refText t.claims) issuedAtKey
          (fun i => decide (i ≤ unix now)))
      then .error (.errorf "Token used before issued")
      else if !(timeClaimOk (jsonImage refText t.claims) "nbf"
          (fun n => decide (n ≤ unix now)))
      then .error (.errorf "Token is not valid yet")
      else .ok (jsonImage refText t.claims)
  uuidString := refText
  FromString := fun s =>
    if s.data.all (fun c => c == 'x') then .ok ⟨s.data.length⟩
    else .error (.errorf "uuid: incorrect UUID format")

/-! ## Concrete inputs -/

/-- Go `time.Second` in nanoseconds. -/
def Second : Int := 1000000000

/-- A signing secret. -/
def demoSecret : List Nat := [7, 7]

/-- A Redis that answers and holds no key. -/
def emptyRedis : Redis := ⟨fun _ => [], none⟩

/-- A storage-backed session with a TTL of one hour. -/
def demoSession : SessionJwt := NewJwtSession demoSecret Hour (some emptyRedis)

/-- Application data of the user with UUID 2. -/
def demoData : GoMap := fun k => if k = "uuid" then some (.uuid ⟨2⟩) else none

/-- The token that `Create` signs for `demoData` at time 0 with token id 3. -/
def demoToken : RefTok :=
  ⟨signingMethod, demoSecret, demoSession.claimsFor demoData 0 (some (refText ⟨3⟩))⟩

/-- The session after that `Create`. -/
def demoSession1 : SessionJwt := (demoSession.Create refExt demoData 0 (.ok ⟨3⟩)).2

/-- The registry after that `Create`: token id 3 of user 2, expiring at second 3600. -/
def demoRedis1 : Redis :=
  ((emptyRedis.StrSet (formatStorageKey (refText ⟨2⟩))).AddExpire (refText ⟨3⟩) Hour 0).2

/-- The data that `Get` returns for `demoToken`. -/
def demoReturned : GoMap :=
  fun key => if technicalKey key then none
    else if key = "uuid" then some (.uuid ⟨2⟩) else jsonImage refText demoToken.claims key

/-- A Redis that answers and holds, under the key `set`, the member `tok`
with expiry second 10. -/
def staleRedis : Redis := ⟨fun k => if k = "set" then [("tok", .fin 10)] else [], none⟩

/-- The registry of `demoRedis1` behind a connection that times out. -/
def faultyRedis : Redis := ⟨demoRedis1.zsets, some "dial tcp: i/o timeout"⟩

/-- The session of `demoSession1` on that connection. -/
def faultySession : SessionJwt := demoSession1.withStorage faultyRedis

/-- Application data of the user with UUID 2 that carries a `source` marker. -/
def sourceData : GoMap :=
  fun k => if k = "uuid" then some (.uuid ⟨2⟩) else if k = "source" then some (.str "cli") else none

/-- The token that `Create` signs for `sourceData` at time 0 with token id 3. -/
def sourceToken : RefTok :=
  ⟨signingMethod, demoSecret, demoSession.claimsFor sourceData 0 (some (refText ⟨3⟩))⟩

/-- A session without storage, with a TTL of one hour. -/
def statelessSession : SessionJwt := NewJwtSession demoSecret Hour none

/-- The token that the stateless `Create` signs for `demoData` at time 0. -/
def plainToken : RefTok :=
  ⟨signingMethod, demoSecret, statelessSession.claimsFor demoData 0 none⟩

/-- The data with the protocol-internal fields (`iat`, `exp`, `persistKey`) removed. -/
def stripTechnical (data : GoMap) : GoMap :=
  fun k => if technicalKey k then none else data k

/-- The call returned a value. -/
def Res.isOk {α : Type} : Res α → Bool
  | .ok _ => true
  | _ => false

/-! ## Facts about the embedding -/

theorem jsonVal_idem (text : UUID → String) (v : Val) :
    jsonVal text (jsonVal text v) = jsonVal text v := by
  cases v <;> rfl

theorem refText_parse (u : UUID) : refExt.FromString (refText u) = .ok u := by
  simp [refExt, refText]

theorem jsonVal_isJson (text : UUID → String) (v : Val) : (jsonVal text v).isJson = true := by
  cases v <;> rfl

theorem jsonVal_of_isJson (text : UUID → String) (v : Val) (h : v.isJson = true) :
    jsonVal text v = v := by
  cases v <;> simp_all [Val.isJson, jsonVal]

theorem refExt_parse_inv (t : RefTok) (kf : String → Except GoErr (List Nat)) (now : Int)
    (claims : GoMap) (hp : refExt.Parse t kf now = .ok claims) :
    claims = jsonImage refText t.claims ∧ claimsValid (jsonImage refText t.claims) now = true := by
  simp only [refExt] at hp
  split at hp
  · exact absurd hp (by simp)
  · split at hp
    · exact absurd hp (by simp)
    · split at hp
      · exact absurd hp (by simp)
      · split at hp
        · exact absurd hp (by simp)
        · split at hp
          · exact absurd hp (by simp)
          · rename_i h1 h2 h3
            refine ⟨by simpa using hp.symm, ?_⟩
            simp only [Bool.not_eq_true, Bool.not_eq_false'] at h1 h2 h3
            simp only [claimsValid, h1, h2, h3, Bool.and_self]

theorem refExt_lawful : refExt.Lawful where
  sign_total := fun m claims key => ⟨⟨m, key, claims⟩, rfl⟩
  parse_signed := by
    intro m claims key t kf now hs hk hvalid
    have ht : t = ⟨m, key, claims⟩ := by
      simp only [refExt, Except.ok.injEq] at hs
      exact hs.symm
    subst ht
    simp only [claimsValid, Bool.and_eq_true] at hvalid
    obtain ⟨⟨h1, h2⟩, h3⟩ := hvalid
    change timeClaimOk (jsonImage refText claims) _ _ = true at h1 h2 h3
    simp only [refExt, hk, h1, h2, h3]
    simp
  parse_valid := by
    intro t kf now claims hp
    obtain ⟨himg, hv⟩ := refExt_parse_inv t kf now claims hp
    rw [himg]
    exact hv
  parse_json := by
    intro t kf now claims hp k v hv
    obtain ⟨himg, _⟩ := refExt_parse_inv t kf now claims hp
    subst himg
    simp only [jsonImage, Option.map_eq_some'] at hv
    obtain ⟨w, _, hw⟩ := hv
    rw [← hw]
    exact jsonVal_isJson _ w
  uuid_text := refText_parse

theorem Check_state (c : clientSetWrapper) (val : String) (now : Int) :
    (c.Check val now).2 = c.client := by
  unfold clientSetWrapper.Check Redis.ZScore
  cases c.client.fault with
  | some f => rfl
  | none =>
    simp only
    cases List.find? (fun e => e.1 == val) (c.client.zsets c.setKey) <;> rfl

theorem List_state (c : clientSetWrapper) (now : Int) : (c.List now).2 = c.client := by
  unfold clientSetWrapper.List Redis.ZRangeByScore
  cases c.client.fault <;> rfl

theorem Check_fault (c : clientSetWrapper) (val : String) (now : Int) (f : String)
    (h : c.client.fault = some f) : (c.Check val now).1.1 = false := by
  simp [clientSetWrapper.Check, Redis.ZScore, h]

theorem Check_find (c : clientSetWrapper) (val : String) (now : Int)
    (h : c.client.fault = none) :
    (c.Check val now).1.1 =
      match (c.client.zsets c.setKey).find? (fun e => e.1 == val) with
      | some e => e.2.geInt (unix now)
      | none => false := by
  unfold clientSetWrapper.Check Redis.ZScore
  rw [h]
  simp only
  cases List.find? (fun e => e.1 == val) (c.client.zsets c.setKey) <;> rfl

theorem find_absent (z : ZSet) (val : String) (h : ∀ s, (val, s) ∉ z) :
    z.find? (fun e => e.1 == val) = none := by
  rw [List.find?_eq_none]
  intro e he hv
  have h1 : e.1 = val := by simpa using hv
  exact h e.2 (by rw [← h1]; exact he)

theorem find_member (z : ZSet) (val : String) (s : Score)
    (hn : (z.map Prod.fst).Nodup) :
    z.find? (fun e => e.1 == val) = some (val, s) ↔ (val, s) ∈ z := by
  induction z with
  | nil => simp
  | cons a t ih =>
    rw [List.map_cons, List.nodup_cons] at hn
    by_cases ha : a.1 = val
    · have hb : (a.1 == val) = true := by simpa using ha
      rw [List.find?_cons]
      simp only [hb]
      constructor
      · intro h
        have : a = (val, s) := by simpa using h
        rw [this]
        exact List.mem_cons_self _ _
      · intro h
        rcases List.mem_cons.mp h with h | h
        · rw [h]
        · exfalso
          apply hn.1
          rw [ha]
          exact List.mem_map.mpr ⟨(val, s), h, rfl⟩
    · have hb : (a.1 == val) = false := by simpa using ha
      rw [List.find?_cons]
      simp only [hb]
      rw [ih hn.2]
      constructor
      · intro h
        exact List.mem_cons_of_mem _ h
      · intro h
        rcases List.mem_cons.mp h with h | h
        · exfalso
          apply ha
          rw [← h]
        · exact h

theorem Score.geInt_iff (s : Score) (n : Int) :
    s.geInt n = true ↔ (s = .posInf ∨ ∃ m, s = .fin m ∧ n ≤ m) := by
  cases s with
  | fin m => simp [Score.geInt]
  | posInf => simp [Score.geInt]

theorem AddExpire_ok (st : Redis) (key val : String) (ttl now : Int)
    (h : st.fault = none) :
    (st.StrSet key).AddExpire val ttl now =
      (none, st.put key
        ((val, if ttl = -1 then Score.posInf else Score.fin (unix (now + ttl))) ::
          ((st.zsets key).filter (fun e => !(e.2.inRange .negInf (.num (unix now - 1))))).filter
            (fun e => !(e.1 == val)))) := by
  simp only [clientSetWrapper.AddExpire, Redis.StrSet, Redis.ZRemRangeByScore, Redis.ZAdd, h,
    Redis.put, coerceRedisErr, cmdErr, if_pos, Prod.mk.injEq, true_and, Redis.mk.injEq, and_true]
  funext k
  by_cases hk : k = key <;> simp [hk]

theorem AddExpire_fault (st : Redis) (key val : String) (ttl now : Int) (f : String)
    (h : st.fault = some f) :
    ((st.StrSet key).AddExpire val ttl now).1 ≠ none ∧
      ((st.StrSet key).AddExpire val ttl now).2 = st := by
  simp [clientSetWrapper.AddExpire, Redis.StrSet, Redis.ZRemRangeByScore, h]

theorem Remove_ok (st : Redis) (key val : String) (h : st.fault = none) :
    (st.StrSet key).Remove val =
      (none, st.put key ((st.zsets key).filter (fun e => !(e.1 == val)))) := by
  simp [clientSetWrapper.Remove, Redis.StrSet, Redis.ZRem, h, coerceRedisErr, cmdErr]

theorem put_same (r : Redis) (key : String) (z : ZSet) : (r.put key z).zsets key = z := by
  simp [Redis.put]

theorem put_other (r : Redis) (key k : String) (z : ZSet) (h : k ≠ key) :
    (r.put key z).zsets k = r.zsets k := by
  simp [Redis.put, h]

theorem put_fault (r : Redis) (key : String) (z : ZSet) : (r.put key z).fault = r.fault := rfl

theorem Check_true_err (c : clientSetWrapper) (val : String) (now : Int)
    (h : (c.Check val now).1.1 = true) : (c.Check val now).1.2 = none := by
  unfold clientSetWrapper.Check at h ⊢
  cases hz : c.client.ZScore c.setKey val with
  | mk a r =>
    rw [hz] at h
    cases a with
    | error e => simp at h
    | ok v => rfl

theorem withStorage_self (j : SessionJwt) (st : Redis) (h : j.storage = some st) :
    j.withStorage st = j := by
  cases j
  simp only [SessionJwt.withStorage] at h ⊢
  rw [h]

theorem Get_notFound {Tok : Type} (x : Ext Tok) (j : SessionJwt) (token : Tok) (now : Int)
    (claims : GoMap) (e : Int) (st : Redis) (id u : String)
    (hdec : j.extractClaims x token now = .ok claims)
    (hexp : extractTimestamp claims expireAtKey = .ok e)
    (hlive : unix now ≤ e)
    (hst : j.storage = some st)
    (hid : extractTokenID claims = .ok id)
    (hu : claims "uuid" = some (.str u))
    (hchk : ((st.StrSet (formatStorageKey u)).Check id now).1.1 = false) :
    j.Get x token now = (.err ErrNotFound, j) := by
  have hnot : ¬ unix now > e := not_lt.mpr hlive
  have hs : ((st.StrSet (formatStorageKey u)).Check id now).2 = st := Check_state _ _ _
  simp only [SessionJwt.Get, hdec, hexp, hnot, if_false, hst, hid, hu, hchk, hs,
    Bool.not_false, Bool.true_or, if_true, withStorage_self j st hst]

theorem Get_found {Tok : Type} (x : Ext Tok) (j : SessionJwt) (token : Tok) (now : Int)
    (claims : GoMap) (e : Int) (st : Redis) (id u : String)
    (hdec : j.extractClaims x token now = .ok claims)
    (hexp : extractTimestamp claims expireAtKey = .ok e)
    (hlive : unix now ≤ e)
    (hst : j.storage = some st)
    (hid : extractTokenID claims = .ok id)
    (hu : claims "uuid" = some (.str u))
    (hchk : ((st.StrSet (formatStorageKey u)).Check id now).1.1 = true) :
    j.Get x token now = (copyPayload x claims, j) := by
  have hnot : ¬ unix now > e := not_lt.mpr hlive
  have hs : ((st.StrSet (formatStorageKey u)).Check id now).2 = st := Check_state _ _ _
  have he : ((st.StrSet (formatStorageKey u)).Check id now).1.2 = none := Check_true_err _ _ _ hchk
  simp only [SessionJwt.Get, hdec, hexp, hnot, if_false, hst, hid, hu, hchk, hs, he,
    withStorage_self j st hst]
  simp

theorem Get_stateless {Tok : Type} (x : Ext Tok) (j : SessionJwt) (token : Tok) (now : Int)
    (claims : GoMap) (e : Int)
    (hdec : j.extractClaims x token now = .ok claims)
    (hexp : extractTimestamp claims expireAtKey = .ok e)
    (hlive : unix now ≤ e)
    (hst : j.storage = none) :
    j.Get x token now = (copyPayload x claims, j) := by
  have hnot : ¬ unix now > e := not_lt.mpr hlive
  simp only [SessionJwt.Get, hdec, hexp, hnot, if_false, hst]

theorem coerceRedisErr_some (e : GoErr) (key : String) : coerceRedisErr (some e) key ≠ none := by
  unfold coerceRedisErr
  simp only
  split
  · simp
  · split <;> simp

theorem Remove_fault (st : Redis) (key val : String)
    (h : ((st.StrSet key).Remove val).1 = none) : st.fault = none := by
  cases hf : st.fault with
  | none => rfl
  | some f =>
    exfalso
    simp only [clientSetWrapper.Remove, Redis.StrSet, Redis.ZRem, hf, cmdErr] at h
    exact coerceRedisErr_some _ _ h

theorem Check_absent (st : Redis) (key val : String) (now : Int)
    (h : ∀ s, (val, s) ∉ st.zsets key) :
    ((st.StrSet key).Check val now).1.1 = false := by
  cases hf : st.fault with
  | some f => exact Check_fault _ _ _ f hf
  | none =>
    rw [Check_find _ _ _ hf]
    simp only [Redis.StrSet]
    rw [find_absent _ _ h]

theorem not_mem_filter_ne (z : ZSet) (val : String) (s : Score) :
    (val, s) ∉ z.filter (fun e => !(e.1 == val)) := by
  simp [List.mem_filter]

theorem Delete_ok_inv {Tok : Type} (x : Ext Tok) (j : SessionJwt) (t : Tok) (now : Int)
    (claims : GoMap)
    (hdel : (j.Delete x t now).1 = .ok ())
    (hdec : j.extractClaims x t now = .ok claims) :
    ∃ st id u, j.storage = some st ∧ extractTokenID claims = .ok id ∧
      claims "uuid" = some (.str u) ∧ st.fault = none ∧
      (j.Delete x t now).2 = j.withStorage
        (st.put (formatStorageKey u)
          ((st.zsets (formatStorageKey u)).filter (fun e => !(e.1 == id)))) := by
  unfold SessionJwt.Delete at hdel ⊢
  cases hst : j.storage with
  | none => simp [hst] at hdel
  | some st =>
    simp only [hst, hdec] at hdel ⊢
    cases hid : extractTokenID claims with
    | error e => simp [hid] at hdel
    | ok id =>
      simp only [hid] at hdel ⊢
      cases hu : claims "uuid" with
      | none => simp [hu] at hdel
      | some v =>
        cases v with
        | str u =>
          simp only [hu] at hdel ⊢
          cases hr : ((st.StrSet (formatStorageKey u)).Remove id).1 with
          | some err =>
            rw [hr] at hdel
            simp only at hdel
            split at hdel <;> simp at hdel
          | none =>
            have hf := Remove_fault _ _ _ hr
            refine ⟨st, id, u, rfl, rfl, rfl, hf, ?_⟩
            simp only [hr]
            rw [Remove_ok _ _ _ hf]
        | null => simp [hu] at hdel
        | bool b => simp [hu] at hdel
        | float64 n => simp [hu] at hdel
        | int64 n => simp [hu] at hdel
        | uuid w => simp [hu] at hdel

theorem List_members (st : Redis) (key : String) (now : Int) :
    ∀ m ∈ ((st.StrSet key).List now).1.1,
      ∃ s, (m, s) ∈ st.zsets key ∧ s.geInt (unix now) = true := by
  intro m hm
  cases hf : st.fault with
  | some f =>
    simp [clientSetWrapper.List, Redis.StrSet, Redis.ZRangeByScore, hf] at hm
  | none =>
    simp only [clientSetWrapper.List, Redis.StrSet, Redis.ZRangeByScore, hf, List.mem_map] at hm
    obtain ⟨e, he, hem⟩ := hm
    have h1 := List.mem_of_mem_take he
    rw [(List.perm_insertionSort _ _).mem_iff, List.mem_filter] at h1
    refine ⟨e.2, ?_, ?_⟩
    · rw [← hem]
      exact h1.1
    · have h2 := h1.2
      cases hs : e.2 with
      | posInf => rfl
      | fin n =>
        rw [hs] at h2
        simpa [Score.inRange, Bound.below, Bound.above, Score.geInt] using h2

theorem AddExpire_live (st : Redis) (key val : String) (ttl now : Int)
    (hok : ((st.StrSet key).AddExpire val ttl now).1 = none) (httl : ttl = -1 ∨ 0 ≤ ttl) :
    ∀ e ∈ ((st.StrSet key).AddExpire val ttl now).2.zsets key, e.2.geInt (unix now) = true := by
  cases hf : st.fault with
  | some f => exact absurd hok (AddExpire_fault st key val ttl now f hf).1
  | none =>
    rw [AddExpire_ok _ _ _ _ _ hf]
    simp only [put_same]
    intro e he
    rcases List.mem_cons.mp he with h | h
    · rw [h]
      by_cases h1 : ttl = -1
      · simp [h1, Score.geInt]
      · have h0 : 0 ≤ ttl := httl.resolve_left h1
        simp only [h1, if_false, Score.geInt, decide_eq_true_eq, unix]
        omega
    · have h2 := (List.mem_filter.mp (List.mem_filter.mp h).1).2
      cases hs : e.2 with
      | posInf => rfl
      | fin n =>
        rw [hs] at h2
        simp only [Score.inRange, Bound.below, Bound.above, Bool.true_and, Bool.not_eq_true',
          decide_eq_false_iff_not, not_le] at h2
        simp only [Score.geInt, decide_eq_true_eq]
        omega

theorem claimsFor_exp (j : SessionJwt) (data : GoMap) (now : Int) (o : Option String) :
    j.claimsFor data now o expireAtKey =
      some (.int64 (if (data "source").isSome then unix (now + 999999 * Hour)
        else unix (now + j.expire))) := by
  unfold SessionJwt.claimsFor
  cases o <;> by_cases h : (data "source").isSome <;>
    simp [h, GoMap.set, expireAtKey, tokenPersisIDKey, issuedAtKey]

theorem claimsFor_iat (j : SessionJwt) (data : GoMap) (now : Int) (o : Option String) :
    j.claimsFor data now o issuedAtKey = some (.int64 (unix now)) := by
  unfold SessionJwt.claimsFor
  cases o <;> by_cases h : (data "source").isSome <;>
    simp [h, GoMap.set, expireAtKey, tokenPersisIDKey, issuedAtKey]

theorem claimsFor_persist (j : SessionJwt) (data : GoMap) (now : Int) (id : String) :
    j.claimsFor data now (some id) tokenPersisIDKey = some (.str id) := by
  unfold SessionJwt.claimsFor
  by_cases h : (data "source").isSome <;>
    simp [h, GoMap.set, expireAtKey, tokenPersisIDKey, issuedAtKey]

theorem claimsFor_app (j : SessionJwt) (data : GoMap) (now : Int) (o : Option String)
    (k : String) (hk : technicalKey k = false) :
    j.claimsFor data now o k = data k := by
  simp only [technicalKey, Bool.or_eq_false_iff, beq_eq_false_iff_ne, ne_eq] at hk
  obtain ⟨⟨h1, h2⟩, h3⟩ := hk
  unfold SessionJwt.claimsFor
  cases o <;> by_cases h : (data "source").isSome <;>
    simp [h, GoMap.set, h1, h2, h3]

theorem technicalKey_uuid : technicalKey "uuid" = false := by decide

/-- The data that `Get` returns for a token that `Create` signed for data
whose values are JSON-native: the data without the technical keys, with the
subject identifier parsed back. -/
theorem copyPayload_created {Tok : Type} (x : Ext Tok) (hx : x.Lawful) (j : SessionJwt)
    (data : GoMap) (now : Int) (o : Option String) (u : UUID)
    (hu : data "uuid" = some (.uuid u))
    (hjson : ∀ k v, technicalKey k = false → k ≠ "uuid" → data k = some v →
      v.isJson = true) :
    copyPayload x (jsonImage x.uuidString (j.claimsFor data now o)) =
      .ok (stripTechnical data) := by
  have h1 : jsonImage x.uuidString (j.claimsFor data now o) "uuid" =
      some (.str (x.uuidString u)) := by
    simp only [jsonImage, claimsFor_app j data now o "uuid" technicalKey_uuid, hu,
      Option.map_some', jsonVal]
  unfold copyPayload
  simp only [h1, hx.uuid_text]
  congr 1
  funext k
  unfold stripTechnical
  by_cases hk : technicalKey k = true
  · simp [hk]
  · have hk2 : technicalKey k = false := by simpa using hk
    simp only [hk2, Bool.false_eq_true, if_false]
    by_cases hku : k = "uuid"
    · simp [hku, hu]
    · simp only [hku, if_false, jsonImage, claimsFor_app j data now o k hk2]
      cases hd : data k with
      | none => rfl
      | some v => simp [jsonVal_of_isJson _ v (hjson k v hk2 hku hd)]

theorem timeClaimOk_congr (claims other : GoMap) (key : String) (test : Int → Bool)
    (h : claims key = other key) : timeClaimOk claims key test = timeClaimOk other key test := by
  simp only [timeClaimOk, extractTimestamp, h]

theorem timeClaimOk_later (claims : GoMap) (key : String) (now1 now2 : Int) (h12 : now1 ≤ now2)
    (h : timeClaimOk claims key (fun n => decide (n ≤ unix now1)) = true) :
    timeClaimOk claims key (fun n => decide (n ≤ unix now2)) = true := by
  unfold timeClaimOk at h ⊢
  cases hts : extractTimestamp claims key with
  | error e => rfl
  | ok v =>
    simp only [hts, Bool.or_eq_true, decide_eq_true_eq, unix] at h ⊢
    rcases h with h | h
    · exact Or.inl h
    · right
      omega

theorem technicalKey_nbf : technicalKey "nbf" = false := by decide

/-- The claims that `Create` signs pass the validation of the JWT library from
the time of `Create` to the end of the configured TTL, when the data carries
no `nbf` number later than the time of the check. -/
theorem claimsValid_created (text : UUID → String) (j : SessionJwt) (data : GoMap)
    (now0 now1 : Int) (o : Option String)
    (h01 : now0 ≤ now1) (h1e : now1 ≤ now0 + j.expire) (hfar : j.expire ≤ 999999 * Hour)
    (hnbf : timeClaimOk (jsonImage text data) "nbf" (fun n => decide (n ≤ unix now1)) = true) :
    claimsValid (jsonImage text (j.claimsFor data now0 o)) now1 = true := by
  have h1 : timeClaimOk (jsonImage text (j.claimsFor data now0 o)) expireAtKey
      (fun e => decide (unix now1 ≤ e)) = true := by
    simp only [timeClaimOk, extractTimestamp, jsonImage, claimsFor_exp, Option.map_some',
      jsonVal, Bool.or_eq_true, decide_eq_true_eq, unix]
    right
    split <;> omega
  have h2 : timeClaimOk (jsonImage text (j.claimsFor data now0 o)) issuedAtKey
      (fun i => decide (i ≤ unix now1)) = true := by
    simp only [timeClaimOk, extractTimestamp, jsonImage, claimsFor_iat, Option.map_some',
      jsonVal, Bool.or_eq_true, decide_eq_true_eq, unix]
    right
    omega
  have h3 : timeClaimOk (jsonImage text (j.claimsFor data now0 o)) "nbf"
      (fun n => decide (n ≤ unix now1)) = true := by
    rw [timeClaimOk_congr _ (jsonImage text data) "nbf" _
      (by simp only [jsonImage, claimsFor_app j data now0 o "nbf" technicalKey_nbf])]
    exact hnbf
  simp only [claimsValid, h1, h2, h3, Bool.and_self]

theorem extractClaims_created {Tok : Type} (x : Ext Tok) (hx : x.Lawful) (j : SessionJwt)
    (data : GoMap) (now0 now1 : Int) (o : Option String) (t : Tok)
    (hs : x.SignedString j.signingMethod (j.claimsFor data now0 o) j.secretKey = .ok t)
    (h01 : now0 ≤ now1) (h1e : now1 ≤ now0 + j.expire) (hfar : j.expire ≤ 999999 * Hour)
    (hnbf : timeClaimOk (jsonImage x.uuidString data) "nbf"
      (fun n => decide (n ≤ unix now1)) = true) :
    j.extractClaims x t now1 = .ok (jsonImage x.uuidString (j.claimsFor data now0 o)) := by
  have hk : j.keyFunc j.signingMethod = .ok j.secretKey := by simp [SessionJwt.keyFunc]
  have hp := hx.parse_signed j.signingMethod (j.claimsFor data now0 o) j.secretKey t j.keyFunc
    now1 hs hk (claimsValid_created _ j data now0 now1 o h01 h1e hfar hnbf)
  unfold SessionJwt.extractClaims
  rw [hp]

theorem extractTimestamp_created (text : UUID → String) (j : SessionJwt) (data : GoMap)
    (now : Int) (o : Option String) :
    extractTimestamp (jsonImage text (j.claimsFor data now o)) expireAtKey =
      .ok (if (data "source").isSome then unix (now + 999999 * Hour)
        else unix (now + j.expire)) := by
  simp only [extractTimestamp, jsonImage, claimsFor_exp, Option.map_some', jsonVal]

theorem created_live (j : SessionJwt) (data : GoMap) (now0 now1 : Int)
    (h1e : now1 ≤ now0 + j.expire) (hfar : j.expire ≤ 999999 * Hour) :
    unix now1 ≤ (if (data "source").isSome then unix (now0 + 999999 * Hour)
      else unix (now0 + j.expire)) := by
  unfold unix
  split <;> omega

theorem Check_added (st : Redis) (key val : String) (score : Score) (rest : ZSet) (now : Int)
    (hf : st.fault = none) (hs : score.geInt (unix now) = true) :
    (((st.put key ((val, score) :: rest)).StrSet key).Check val now).1.1 = true := by
  rw [Check_find _ _ _ (by rw [Redis.StrSet, put_fault]; exact hf)]
  simp only [Redis.StrSet, put_same, List.find?_cons, beq_self_eq_true]
  exact hs

theorem Create_then_Get {Tok : Type} (x : Ext Tok) (hx : x.Lawful) (j : SessionJwt)
    (data : GoMap) (u tokenID : UUID) (now0 now1 : Int)
    (hu : data "uuid" = some (.uuid u))
    (hjson : ∀ k v, technicalKey k = false → k ≠ "uuid" → data k = some v →
      v.isJson = true)
    (hnbf : timeClaimOk data "nbf" (fun n => decide (n ≤ unix now1)) = true)
    (hhealthy : ∀ st, j.storage = some st → st.fault = none)
    (h01 : now0 ≤ now1) (h1e : now1 ≤ now0 + j.expire) (hfar : j.expire ≤ 999999 * Hour) :
    ∃ t, (j.Create x data now0 (.ok tokenID)).1 = .ok t ∧
      (j.Create x data now0 (.ok tokenID)).2.Get x t now1 =
        (.ok (stripTechnical data), (j.Create x data now0 (.ok tokenID)).2) := by
  have hnbf2 : timeClaimOk (jsonImage x.uuidString data) "nbf"
      (fun n => decide (n ≤ unix now1)) = true := by
    rw [timeClaimOk_congr _ data "nbf" _ (by
      simp only [jsonImage]
      cases hd : data "nbf" with
      | none => rfl
      | some v =>
        simp [jsonVal_of_isJson _ v (hjson "nbf" v technicalKey_nbf (by decide) hd)])]
    exact hnbf
  cases hst : j.storage with
  | none =>
    obtain ⟨t, ht⟩ := hx.sign_total j.signingMethod (j.claimsFor data now0 none) j.secretKey
    have hc : j.Create x data now0 (.ok tokenID) = (.ok t, j) := by
      simp only [SessionJwt.Create, hst, SessionJwt.sign, ht]
    refine ⟨t, by rw [hc], ?_⟩
    rw [hc]
    rw [Get_stateless x j t now1 _ _
      (extractClaims_created x hx j data now0 now1 none t ht h01 h1e hfar hnbf2)
      (extractTimestamp_created _ j data now0 none)
      (created_live j data now0 now1 h1e hfar) hst]
    rw [copyPayload_created x hx j data now0 none u hu hjson]
  | some st =>
    have hf := hhealthy st hst
    obtain ⟨t, ht⟩ := hx.sign_total j.signingMethod
      (j.claimsFor data now0 (some (x.uuidString tokenID))) j.secretKey
    have hc : j.Create x data now0 (.ok tokenID) =
        (.ok t, j.withStorage (st.put (formatStorageKey (x.uuidString u))
          ((x.uuidString tokenID,
              if j.expire = -1 then Score.posInf else Score.fin (unix (now0 + j.expire))) ::
            ((st.zsets (formatStorageKey (x.uuidString u))).filter
              (fun e => !(e.2.inRange .negInf (.num (unix now0 - 1))))).filter
              (fun e => !(e.1 == x.uuidString tokenID))))) := by
      simp only [SessionJwt.Create, hst, hu, AddExpire_ok _ _ _ _ _ hf, SessionJwt.sign, ht]
    refine ⟨t, by rw [hc], ?_⟩
    rw [hc]
    have hscore : (if j.expire = -1 then Score.posInf
        else Score.fin (unix (now0 + j.expire))).geInt (unix now1) = true := by
      split
      · rfl
      · simp only [Score.geInt, decide_eq_true_eq, unix]
        omega
    generalize hrest : ((st.zsets (formatStorageKey (x.uuidString u))).filter
      (fun e => !(e.2.inRange .negInf (.num (unix now0 - 1))))).filter
      (fun e => !(e.1 == x.uuidString tokenID)) = rest
    have hdec : (j.withStorage (st.put (formatStorageKey (x.uuidString u))
        ((x.uuidString tokenID,
          if j.expire = -1 then Score.posInf else Score.fin (unix (now0 + j.expire))) ::
            rest))).extractClaims x t now1 =
        .ok (jsonImage x.uuidString (j.claimsFor data now0 (some (x.uuidString tokenID)))) :=
      extractClaims_created x hx j data now0 now1 _ t ht h01 h1e hfar hnbf2
    show SessionJwt.Get x (j.withStorage _) t now1 = (_, j.withStorage _)
    rw [Get_found x (j.withStorage _) t now1 _ _ _ (x.uuidString tokenID) (x.uuidString u)
      hdec
      (extractTimestamp_created _ j data now0 _)
      (created_live j data now0 now1 h1e hfar) rfl
      (by simp only [extractTokenID, jsonImage, claimsFor_persist, Option.map_some', jsonVal])
      (by simp only [jsonImage, claimsFor_app j data now0 _ "uuid" technicalKey_uuid, hu,
        Option.map_some', jsonVal])
      (Check_added st _ _ _ _ now1 hf hscore)]
    rw [copyPayload_created x hx j data now0 _ u hu hjson]

theorem Get_ok_inv {Tok : Type} (x : Ext Tok) (j : SessionJwt) (t : Tok) (now : Int)
    (claims d : GoMap) (st : Redis)
    (hst : j.storage = some st)
    (hdec : j.extractClaims x t now = .ok claims)
    (hget : (j.Get x t now).1 = .ok d) :
    ∃ e id us, extractTimestamp claims expireAtKey = .ok e ∧ unix now ≤ e ∧
      extractTokenID claims = .ok id ∧ claims "uuid" = some (.str us) ∧
      ((st.StrSet (formatStorageKey us)).Check id now).1.1 = true ∧
      copyPayload x claims = .ok d := by
  unfold SessionJwt.Get at hget
  simp only [hdec] at hget
  cases hts : extractTimestamp claims expireAtKey with
  | error err => simp [hts] at hget
  | ok e =>
    simp only [hts] at hget
    by_cases hlate : unix now > e
    · simp [hlate] at hget
    · simp only [hlate, if_false, hst] at hget
      cases hid : extractTokenID claims with
      | error err => simp [hid] at hget
      | ok id =>
        simp only [hid] at hget
        cases hu : claims "uuid" with
        | none => simp [hu] at hget
        | some v =>
          cases v with
          | str us =>
            simp only [hu] at hget
            cases hc : ((st.StrSet (formatStorageKey us)).Check id now).1.1 with
            | false => simp [hc] at hget
            | true =>
              have herr := Check_true_err _ _ _ hc
              simp only [hc, herr] at hget
              refine ⟨e, id, us, rfl, not_lt.mp hlate, rfl, rfl, hc, ?_⟩
              simpa using hget
          | null => simp [hu] at hget
          | bool b => simp [hu] at hget
          | float64 n => simp [hu] at hget
          | int64 n => simp [hu] at hget
          | uuid w => simp [hu] at hget

theorem copyPayload_inv {Tok : Type} (x : Ext Tok) (claims d : GoMap) (us : String)
    (hu : claims "uuid" = some (.str us)) (h : copyPayload x claims = .ok d) :
    ∃ u, x.FromString us = .ok u ∧
      d = fun key => if technicalKey key then none
        else if key = "uuid" then some (.uuid u) else claims key := by
  unfold copyPayload at h
  simp only [hu] at h
  cases hf : x.FromString us with
  | error err => simp [hf] at h
  | ok u =>
    simp only [hf, Res.ok.injEq] at h
    exact ⟨u, rfl, h.symm⟩

theorem Check_true_fault (st : Redis) (key val : String) (now : Int)
    (h : ((st.StrSet key).Check val now).1.1 = true) : st.fault = none := by
  cases hf : st.fault with
  | none => rfl
  | some f =>
    rw [Check_fault _ _ _ f hf] at h
    exact absurd h (by simp)

theorem extractClaims_ok_inv {Tok : Type} (x : Ext Tok) (j : SessionJwt) (t : Tok) (now : Int)
    (claims : GoMap) (h : j.extractClaims x t now = .ok claims) :
    x.Parse t j.keyFunc now = .ok claims := by
  unfold SessionJwt.extractClaims at h
  cases hp : x.Parse t j.keyFunc now with
  | error err => simp [hp] at h
  | ok c =>
    simp only [hp, Except.ok.injEq] at h
    rw [h]

theorem Create_state {Tok : Type} (x : Ext Tok) (j : SessionJwt) (st : Redis) (data : GoMap)
    (now : Int) (u tokenID : UUID)
    (hst : j.storage = some st) (hf : st.fault = none) (hu : data "uuid" = some (.uuid u)) :
    (j.Create x data now (.ok tokenID)).2 =
      j.withStorage (st.put (formatStorageKey (x.uuidString u))
        ((x.uuidString tokenID,
            if j.expire = -1 then Score.posInf else Score.fin (unix (now + j.expire))) ::
          ((st.zsets (formatStorageKey (x.uuidString u))).filter
            (fun e => !(e.2.inRange .negInf (.num (unix now - 1))))).filter
            (fun e => !(e.1 == x.uuidString tokenID)))) := by
  simp only [SessionJwt.Create, hst, hu, AddExpire_ok _ _ _ _ _ hf]

theorem Delete_ok {Tok : Type} (x : Ext Tok) (j : SessionJwt) (st : Redis) (t : Tok) (now : Int)
    (claims : GoMap) (id us : String)
    (hst : j.storage = some st) (hf : st.fault = none)
    (hdec : j.extractClaims x t now = .ok claims)
    (hid : extractTokenID claims = .ok id) (hu : claims "uuid" = some (.str us)) :
    j.Delete x t now =
      (.ok (), j.withStorage (st.put (formatStorageKey us)
        ((st.zsets (formatStorageKey us)).filter (fun e => !(e.1 == id))))) := by
  simp only [SessionJwt.Delete, hst, hdec, hid, hu, Remove_ok _ _ _ hf]

theorem mem_filter_of (z : ZSet) (p : String × Score → Bool) (a : String × Score)
    (h : a ∈ z.filter p) : a ∈ z :=
  (List.mem_filter.mp h).1

/-- The expiry test of `Get` itself: when the codec has accepted the token and
the second count of now exceeds the `exp` claim, `Get` answers with the
`Expired` error before it looks at the storage. -/
theorem Get_expired_branch {Tok : Type} (x : Ext Tok) (j : SessionJwt) (token : Tok)
    (now : Int) (claims : GoMap) (e : Int)
    (hdec : j.extractClaims x token now = .ok claims)
    (hexp : extractTimestamp claims expireAtKey = .ok e)
    (hlate : unix now > e) :
    j.Get x token now = (.err (.wrap "validate token: " ErrExpired ""), j) := by
  simp only [SessionJwt.Get, hdec, hexp, hlate, if_true]

/-- The expiry test of `Get` is pre-empted by the codec: a codec that meets the
contract accepts a token after its expiry second only when the `exp` claim is
zero, so only then is the test of `Get` reached with an elapsed expiry. -/
theorem Get_expired_branch_only_zero {Tok : Type} (x : Ext Tok) (hx : x.Lawful)
    (j : SessionJwt) (token : Tok) (now : Int) (claims : GoMap) (e : Int)
    (hdec : j.extractClaims x token now = .ok claims)
    (hexp : extractTimestamp claims expireAtKey = .ok e)
    (hlate : unix now > e) : e = 0 := by
  have hv := hx.parse_valid token j.keyFunc now claims
    (extractClaims_ok_inv x j token now claims hdec)
  simp only [claimsValid, Bool.and_eq_true] at hv
  have h1 := hv.1.1
  simp only [timeClaimOk, hexp, Bool.or_eq_true, decide_eq_true_eq] at h1
  rcases h1 with h | h
  · exact h
  · exact absurd hlate (not_lt.mpr h)

/-! ## The claims -/

/-- C1. With storage configured: when `Delete` of a token succeeds, a following
`Get` of it fails with the session-level `NotFound` error although the token
still decodes and verifies to the same, unexpired claim set.  This holds for
every token on which `Delete` succeeds, in particular for one that `Create`
produced. -/
theorem get_after_delete {Tok : Type} (x : Ext Tok) (j : SessionJwt) (t : Tok)
    (now1 now2 : Int) (claims : GoMap) (e : Int)
    (hdel : (j.Delete x t now1).1 = .ok ())
    (hdec1 : j.extractClaims x t now1 = .ok claims)
    (hdec2 : j.extractClaims x t now2 = .ok claims)
    (hexp : extractTimestamp claims expireAtKey = .ok e)
    (hlive : unix now2 ≤ e) :
    j.storage ≠ none ∧
      (j.Delete x t now1).2.Get x t now2 = (.err ErrNotFound, (j.Delete x t now1).2) ∧
      ((j.Delete x t now1).2.Get x t now2).1.failsWith .notFound = true := by
  obtain ⟨st, id, u, hst, hid, hu, hf, hpost⟩ := Delete_ok_inv x j t now1 claims hdel hdec1
  have hget : (j.Delete x t now1).2.Get x t now2 =
      (.err ErrNotFound, (j.Delete x t now1).2) := by
    rw [hpost]
    apply Get_notFound x _ t now2 claims e _ id u _ hexp hlive rfl hid hu
    · apply Check_absent
      intro s
      rw [put_same]
      exact not_mem_filter_ne _ _ _
    · exact hdec2
  refine ⟨by rw [hst]; simp, hget, ?_⟩
  rw [hget]
  rfl

/-- C1, a run. `demoToken` is produced by `Create`, `Delete` of it succeeds at
second 1, and `Get` at second 2 answers `NotFound`. -/
theorem get_after_delete_witness :
    (demoSession.Create refExt demoData 0 (.ok ⟨3⟩)).1 = .ok demoToken ∧
    (demoSession1.Delete refExt demoToken Second).1 = .ok () ∧
    demoSession1.extractClaims refExt demoToken Second =
      .ok (jsonImage refText demoToken.claims) ∧
    demoSession1.extractClaims refExt demoToken (2 * Second) =
      .ok (jsonImage refText demoToken.claims) ∧
    extractTimestamp (jsonImage refText demoToken.claims) expireAtKey = .ok 3600 ∧
    unix (2 * Second) ≤ 3600 ∧
    (demoSession1.storage ≠ none ∧
      (demoSession1.Delete refExt demoToken Second).2.Get refExt demoToken (2 * Second) =
        (.err ErrNotFound, (demoSession1.Delete refExt demoToken Second).2) ∧
      ((demoSession1.Delete refExt demoToken Second).2.Get refExt demoToken
        (2 * Second)).1.failsWith .notFound = true) :=
  ⟨rfl, rfl, rfl, rfl, rfl, by decide,
    get_after_delete refExt demoSession1 demoToken Second (2 * Second)
      (jsonImage refText demoToken.claims) 3600 rfl rfl rfl rfl (by decide)⟩

/-- C3. In storage-backed mode, for a token `t` on which `Get` succeeds with
data `d`: `RefreshToken(t)`, given a fresh token id, returns a token `t2`;
`Get(t2)`, no earlier than the refresh and within the configured TTL, succeeds
and returns the same data `d`; and a following `Get(t)`, while `t` still
decodes and is unexpired, fails with `NotFound`. -/
theorem refresh_token_replaces {Tok : Type} (x : Ext Tok) (hx : x.Lawful) (j : SessionJwt)
    (st : Redis) (t : Tok) (d claims : GoMap) (tokenID2 : UUID) (now1 now2 now3 e : Int)
    (oldID : String)
    (hst : j.storage = some st)
    (hdec1 : j.extractClaims x t now1 = .ok claims)
    (hget : (j.Get x t now1).1 = .ok d)
    (hid : extractTokenID claims = .ok oldID)
    (hfresh : x.uuidString tokenID2 ≠ oldID)
    (h12 : now1 ≤ now2) (h2e : now2 ≤ now1 + j.expire) (hfar : j.expire ≤ 999999 * Hour)
    (hdec3 : j.extractClaims x t now3 = .ok claims)
    (hexp : extractTimestamp claims expireAtKey = .ok e)
    (hlive3 : unix now3 ≤ e) :
    ∃ t2, (j.RefreshToken x t now1 (.ok tokenID2)).1 = .ok t2 ∧
      ((j.RefreshToken x t now1 (.ok tokenID2)).2.Get x t2 now2).1 = .ok d ∧
      ((j.RefreshToken x t now1 (.ok tokenID2)).2.Get x t now3).1 = .err ErrNotFound := by
  obtain ⟨e1, id1, us, hts, hle, hid1, hu, hchk, hcp⟩ :=
    Get_ok_inv x j t now1 claims d st hst hdec1 hget
  have hidEq : id1 = oldID := by
    rw [hid] at hid1
    simpa using hid1.symm
  subst hidEq
  obtain ⟨u, hfs, hd⟩ := copyPayload_inv x claims d us hu hcp
  have hf : st.fault = none := Check_true_fault _ _ _ _ hchk
  have hgetfull : j.Get x t now1 = (.ok d, j) := by
    rw [Get_found x j t now1 claims e1 st id1 us hdec1 hts hle hst hid hu hchk, hcp]
  have hdel := Delete_ok x j st t now1 claims id1 us hst hf hdec1 hid hu
  generalize hst1 : st.put (formatStorageKey us)
    ((st.zsets (formatStorageKey us)).filter (fun e => !(e.1 == id1))) = st1 at hdel
  have hf1 : st1.fault = none := by
    rw [← hst1, put_fault]
    exact hf
  have hud : d "uuid" = some (.uuid u) := by
    rw [hd]
    simp [technicalKey_uuid]
  have href : j.RefreshToken x t now1 (.ok tokenID2) =
      (j.withStorage st1).Create x d now1 (.ok tokenID2) := by
    simp only [SessionJwt.RefreshToken, hgetfull, hdel]
  have hhealthy : ∀ s, (j.withStorage st1).storage = some s → s.fault = none := by
    intro s hs
    have : st1 = s := by simpa [SessionJwt.withStorage] using hs
    rw [← this]
    exact hf1
  have hparse := extractClaims_ok_inv x j t now1 claims hdec1
  have hother : ∀ k, technicalKey k = false → k ≠ "uuid" → d k = claims k := by
    intro k hk hku
    rw [hd]
    simp [hk, hku]
  have hjson : ∀ k v, technicalKey k = false → k ≠ "uuid" → d k = some v →
      v.isJson = true := by
    intro k v hk hku hv
    rw [hother k hk hku] at hv
    exact hx.parse_json t j.keyFunc now1 claims hparse k v hv
  have hnbf : timeClaimOk d "nbf" (fun n => decide (n ≤ unix now2)) = true := by
    rw [timeClaimOk_congr d claims "nbf" _ (hother "nbf" technicalKey_nbf (by decide))]
    apply timeClaimOk_later claims "nbf" now1 now2 h12
    have hv := hx.parse_valid t j.keyFunc now1 claims hparse
    simp only [claimsValid, Bool.and_eq_true] at hv
    exact hv.2
  obtain ⟨t2, hc, hg⟩ := Create_then_Get x hx (j.withStorage st1) d u tokenID2 now1 now2 hud
    hjson hnbf hhealthy h12 h2e hfar
  have hstrip : stripTechnical d = d := by
    funext k
    unfold stripTechnical
    by_cases hk : technicalKey k = true
    · rw [hd]
      simp [hk]
    · simp [hk]
  refine ⟨t2, by rw [href]; exact hc, ?_, ?_⟩
  · rw [href, hg, hstrip]
  · rw [href, Create_state x (j.withStorage st1) st1 d now1 u tokenID2 rfl hf1 hud]
    have hget3 := Get_notFound x ((j.withStorage st1).withStorage
        (st1.put (formatStorageKey (x.uuidString u))
          ((x.uuidString tokenID2,
              if (j.withStorage st1).expire = -1 then Score.posInf
              else Score.fin (unix (now1 + (j.withStorage st1).expire))) ::
            ((st1.zsets (formatStorageKey (x.uuidString u))).filter
              (fun e => !(e.2.inRange .negInf (.num (unix now1 - 1))))).filter
              (fun e => !(e.1 == x.uuidString tokenID2)))))
      t now3 claims e _ id1 us hdec3 hexp hlive3 rfl hid hu
      (by
        apply Check_absent
        intro s hmem
        by_cases hkey : formatStorageKey us = formatStorageKey (x.uuidString u)
        · rw [hkey, put_same] at hmem
          rcases List.mem_cons.mp hmem with h | h
          · have : id1 = x.uuidString tokenID2 := by
              simpa using congrArg Prod.fst h
            exact hfresh this.symm
          · have h2 := mem_filter_of _ _ _ (mem_filter_of _ _ _ h)
            rw [← hst1, ← hkey, put_same] at h2
            exact not_mem_filter_ne _ _ _ h2
        · rw [put_other _ _ _ _ hkey, ← hst1, put_same] at hmem
          exact not_mem_filter_ne _ _ _ hmem)
    rw [hget3]

/-- C3, a run. `demoToken` is refreshed at second 1 with the new token id 4. -/
theorem refresh_token_replaces_witness :
    refExt.Lawful ∧ demoSession1.storage = some demoRedis1 ∧
      demoSession1.extractClaims refExt demoToken Second =
        .ok (jsonImage refText demoToken.claims) ∧
      (demoSession1.Get refExt demoToken Second).1 = .ok demoReturned ∧
      extractTokenID (jsonImage refText demoToken.claims) = .ok (refText ⟨3⟩) ∧
      refExt.uuidString ⟨4⟩ ≠ refText ⟨3⟩ ∧
      Second ≤ 2 * Second ∧ 2 * Second ≤ Second + demoSession1.expire ∧
      demoSession1.expire ≤ 999999 * Hour ∧
      demoSession1.extractClaims refExt demoToken (3 * Second) =
        .ok (jsonImage refText demoToken.claims) ∧
      extractTimestamp (jsonImage refText demoToken.claims) expireAtKey = .ok 3600 ∧
      unix (3 * Second) ≤ 3600 ∧
      ∃ t2, (demoSession1.RefreshToken refExt demoToken Second (.ok ⟨4⟩)).1 = .ok t2 ∧
        ((demoSession1.RefreshToken refExt demoToken Second (.ok ⟨4⟩)).2.Get refExt t2
          (2 * Second)).1 = .ok demoReturned ∧
        ((demoSession1.RefreshToken refExt demoToken Second (.ok ⟨4⟩)).2.Get refExt demoToken
          (3 * Second)).1 = .err ErrNotFound :=
  ⟨refExt_lawful, rfl, rfl, rfl, rfl, by decide, by decide, by decide, by decide, rfl, rfl,
    by decide,
    refresh_token_replaces refExt refExt_lawful demoSession1 demoRedis1 demoToken demoReturned
      (jsonImage refText demoToken.claims) ⟨4⟩ Second (2 * Second) (3 * Second) 3600
      (refText ⟨3⟩) rfl rfl rfl rfl (by decide) (by decide) (by decide) (by decide) rfl rfl
      (by decide)⟩

/-- C4. A session constructed without storage answers `Delete` with the
`NoStorage` error for every token and every codec, at every time: the token is
never handed to the codec, and the session is left as it was. -/
theorem delete_without_storage {Tok : Type} (x : Ext Tok) (secret : List Nat) (expire : Int)
    (token : Tok) (now : Int) :
    (NewJwtSession secret expire none).Delete x token now =
        (.err (.wrap "delete token: " ErrNoStorage ""), NewJwtSession secret expire none) ∧
      ((NewJwtSession secret expire none).Delete x token now).1.failsWith .noStorage = true :=
  ⟨rfl, rfl⟩

/-- C5, the code at the failing input. A token that `Create` issued at time 0
with a TTL of one hour carries the expiry second 3600.  Two hours after the
issue `Get` returns no data, and its error is the "Token is expired" of the
codec, wrapped by `extractClaims` and by `Get`: `errors.Is` does not find the
`Expired` error in it.  This is so without storage and with the token still
registered in the storage. -/
theorem get_expired_token_reports_codec_error :
    (statelessSession.Create refExt demoData 0 (.ok ⟨3⟩)).1 = .ok plainToken ∧
      extractTimestamp (jsonImage refText plainToken.claims) expireAtKey = .ok 3600 ∧
      extractTimestamp (jsonImage refText demoToken.claims) expireAtKey = .ok 3600 ∧
      unix (2 * Hour) = 7200 ∧
      (statelessSession.Get refExt plainToken (2 * Hour)).1 =
        .err (.wrap "get token: " (.wrap "extract claims: " (.errorf "Token is expired") "") "") ∧
      (statelessSession.Get refExt plainToken (2 * Hour)).1.failsWith .expired = false ∧
      (demoSession1.Get refExt demoToken (2 * Hour)).1 =
        .err (.wrap "get token: " (.wrap "extract claims: " (.errorf "Token is expired") "") "") ∧
      (demoSession1.Get refExt demoToken (2 * Hour)).1.failsWith .expired = false :=
  ⟨rfl, rfl, rfl, by decide, rfl, rfl, rfl, rfl⟩

/-- C6, counterexample. At second 20 the member `tok`, whose expiry second is
10, is physically present and expired, and `Remove` returns no error. -/
theorem remove_expired_counterexample :
    ("tok", Score.fin 10) ∈ staleRedis.zsets "set" ∧ 10 < unix (20 * Second) ∧
      ((staleRedis.StrSet "set").Check "tok" (20 * Second)).1.1 = false ∧
      ((staleRedis.StrSet "set").Remove "tok").1 = none := by
  refine ⟨?_, by decide, rfl, rfl⟩
  simp [staleRedis]

/-- C6, amended. `Remove` deletes a member regardless of its expiry state: for
a member that is physically present, live or already expired, and a backend
that answers, `Remove` returns no error, the set gets smaller, the member is
gone and every other entry is as before. -/
theorem remove_present (st : Redis) (key val : String) (s : Score)
    (hf : st.fault = none) (hmem : (val, s) ∈ st.zsets key) :
    ((st.StrSet key).Remove val).1 = none ∧
      (((st.StrSet key).Remove val).2.zsets key).length < (st.zsets key).length ∧
      (∀ s1, (val, s1) ∉ ((st.StrSet key).Remove val).2.zsets key) ∧
      (∀ m s1, m ≠ val →
        ((m, s1) ∈ ((st.StrSet key).Remove val).2.zsets key ↔ (m, s1) ∈ st.zsets key)) := by
  rw [Remove_ok _ _ _ hf]
  show none = none ∧ _
  rw [put_same]
  refine ⟨rfl, ?_, fun s1 => not_mem_filter_ne _ _ _, ?_⟩
  · apply List.length_filter_lt_length_iff_exists.mpr
    exact ⟨(val, s), hmem, by simp⟩
  · intro m s1 hm
    simp [List.mem_filter, hm]

/-- C6, a run. `Remove` of the expired member `tok` of `staleRedis`. -/
theorem remove_present_witness :
    staleRedis.fault = none ∧ ("tok", Score.fin 10) ∈ staleRedis.zsets "set" ∧
      (((staleRedis.StrSet "set").Remove "tok").1 = none ∧
      (((staleRedis.StrSet "set").Remove "tok").2.zsets "set").length <
        (staleRedis.zsets "set").length ∧
      (∀ s1, ("tok", s1) ∉ ((staleRedis.StrSet "set").Remove "tok").2.zsets "set") ∧
      (∀ m s1, m ≠ "tok" →
        ((m, s1) ∈ ((staleRedis.StrSet "set").Remove "tok").2.zsets "set" ↔
          (m, s1) ∈ staleRedis.zsets "set"))) :=
  ⟨rfl, by simp [staleRedis],
    remove_present staleRedis "set" "tok" (.fin 10) rfl (by simp [staleRedis])⟩

/-- C7, counterexample. A member whose expiry second equals the current second
is reported live by `Check`, although its expiry is not strictly greater than now. -/
theorem check_boundary_counterexample :
    ((staleRedis.StrSet "set").Check "tok" (10 * Second)).1.1 = true ∧
      ¬ ∃ s, ("tok", s) ∈ staleRedis.zsets "set" ∧
        (s = .posInf ∨ ∃ n, s = .fin n ∧ unix (10 * Second) < n) := by
  refine ⟨rfl, ?_⟩
  rintro ⟨s, hs, h⟩
  have hs2 : s = .fin 10 := by
    simp only [staleRedis, if_true, List.mem_singleton, Prod.mk.injEq, true_and] at hs
    exact hs
  subst hs2
  rcases h with h | ⟨n, hn, hlt⟩
  · exact absurd h (by decide)
  · have hn2 : n = 10 := by
      simp only [Score.fin.injEq] at hn
      exact hn.symm
    subst hn2
    exact absurd hlt (by decide)

/-- C7, amended. On a sorted set that holds each member once, `Check` returns
true exactly when the backend answers and the set holds the member with an
expiry that is infinite or greater than or equal to the current second; an
entry whose expiry equals now is live. -/
theorem check_live_iff (st : Redis) (key val : String) (now : Int)
    (hn : ((st.zsets key).map Prod.fst).Nodup) :
    ((st.StrSet key).Check val now).1.1 = true ↔
      st.fault = none ∧ ∃ s, (val, s) ∈ st.zsets key ∧
        (s = .posInf ∨ ∃ n, s = .fin n ∧ unix now ≤ n) := by
  cases hf : st.fault with
  | some f =>
    rw [Check_fault _ _ _ f hf]
    simp
  | none =>
    rw [Check_find _ _ _ hf]
    simp only [Redis.StrSet, true_and]
    cases hfind : (st.zsets key).find? (fun e => e.1 == val) with
    | none =>
      simp only [Bool.false_eq_true, false_iff]
      rintro ⟨s, hs, _⟩
      rw [← find_member _ _ _ hn, hfind] at hs
      exact absurd hs (by simp)
    | some e =>
      have he1 : e.1 = val := by
        have := List.find?_some hfind
        simpa using this
      have hmem : (val, e.2) ∈ st.zsets key := by
        rw [← find_member _ _ _ hn, hfind, ← he1]
      simp only [Score.geInt_iff]
      constructor
      · intro h
        exact ⟨e.2, hmem, h⟩
      · rintro ⟨s, hs, h⟩
        rw [← find_member _ _ _ hn, hfind] at hs
        have : e.2 = s := by
          have h2 : e = (val, s) := by simpa using hs
          rw [h2]
        rw [this]
        exact h

/-- C7, a run. `Check` of the member `tok` of `staleRedis` at second 10. -/
theorem check_live_iff_witness :
    ((staleRedis.zsets "set").map Prod.fst).Nodup ∧
      (((staleRedis.StrSet "set").Check "tok" (10 * Second)).1.1 = true ↔
        staleRedis.fault = none ∧ ∃ s, ("tok", s) ∈ staleRedis.zsets "set" ∧
          (s = .posInf ∨ ∃ n, s = .fin n ∧ unix (10 * Second) ≤ n)) :=
  ⟨by decide, check_live_iff staleRedis "set" "tok" (10 * Second) (by decide)⟩

/-- C8, the code at the failing input. For data with a `source` marker `Create`
signs an expiry of 999999 hours but registers the token id with the configured
TTL of one hour; two hours later the token is unexpired and `Get` answers
`NotFound`. -/
theorem source_token_lost_after_ttl :
    (demoSession.Create refExt sourceData 0 (.ok ⟨3⟩)).1 = .ok sourceToken ∧
      extractTimestamp (jsonImage refText sourceToken.claims) expireAtKey = .ok 3599996400 ∧
      (demoSession.Create refExt sourceData 0 (.ok ⟨3⟩)).2.storage.map
        (fun r => r.zsets (formatStorageKey (refText ⟨2⟩))) = some [(refText ⟨3⟩, .fin 3600)] ∧
      unix (2 * Hour) = 7200 ∧
      ((demoSession.Create refExt sourceData 0 (.ok ⟨3⟩)).2.Get refExt sourceToken
        (2 * Hour)).1.failsWith .notFound = true :=
  ⟨rfl, rfl, by decide, by decide, rfl⟩

/-- C9, the code at the failing input. The token `demoToken` is live in the
registry and `Get` returns its data while the backend answers; when the
connection times out, `Check` reports the time-out and `Get` answers
`NotFound`. -/
theorem get_storage_fault_is_not_found :
    (demoSession1.Get refExt demoToken Second).1.isOk = true ∧
      ((faultyRedis.StrSet (formatStorageKey (refText ⟨2⟩))).Check (refText ⟨3⟩) Second).1 =
        (false, some (.wrap "check storage key: " (.errorf "dial tcp: i/o timeout") "")) ∧
      (faultySession.Get refExt demoToken Second).1.failsWith .notFound = true :=
  ⟨rfl, rfl, rfl⟩

/-- C10, counterexample. `Check` at second 20 leaves in the stored set the
entry `tok`, whose expiry second 10 has elapsed. -/
theorem check_keeps_expired_counterexample :
    ¬ ∀ e ∈ ((staleRedis.StrSet "set").Check "tok" (20 * Second)).2.zsets "set",
        e.2.geInt (unix (20 * Second)) = true := by
  intro h
  have hmem : ("tok", Score.fin 10) ∈
      ((staleRedis.StrSet "set").Check "tok" (20 * Second)).2.zsets "set" := by
    rw [Check_state]
    simp [staleRedis, Redis.StrSet]
  exact absurd (h _ hmem) (by decide)

/-- C10, amended. `AddExpire` and `Add` first discard the entries of their set
whose expiry second is earlier than now: after a successful `AddExpire` with a
TTL that is not negative (or is the no-expiry mark -1), and after a successful
`Add`, the stored set has no entry whose expiry is earlier than now.  `Check`
and `List` do not modify the stored set; `List` reports only members whose
expiry is not earlier than now; `Remove` deletes the named member only. -/
theorem add_purges_reads_keep (st : Redis) (key val : String) (ttl now : Int) :
    (((st.StrSet key).AddExpire val ttl now).1 = none → (ttl = -1 ∨ 0 ≤ ttl) →
        ∀ e ∈ ((st.StrSet key).AddExpire val ttl now).2.zsets key,
          e.2.geInt (unix now) = true) ∧
      (((st.StrSet key).Add val now).1 = none →
        ∀ e ∈ ((st.StrSet key).Add val now).2.zsets key, e.2.geInt (unix now) = true) ∧
      ((st.StrSet key).Check val now).2 = st ∧
      ((st.StrSet key).List now).2 = st ∧
      (∀ m ∈ ((st.StrSet key).List now).1.1,
        ∃ s, (m, s) ∈ st.zsets key ∧ s.geInt (unix now) = true) ∧
      (st.fault = none →
        ((st.StrSet key).Remove val).2.zsets key =
          (st.zsets key).filter (fun e => !(e.1 == val))) := by
  refine ⟨AddExpire_live st key val ttl now, ?_, Check_state _ _ _, List_state _ _,
    List_members st key now, ?_⟩
  · intro h
    exact AddExpire_live st key val (-1) now h (Or.inl rfl)
  · intro hf
    rw [Remove_ok _ _ _ hf, put_same]

/-- C10, a run. `AddExpire` and `Add` on `staleRedis` at second 20 drop the
expired member `tok`. -/
theorem add_purges_reads_keep_witness :
    ((staleRedis.StrSet "set").AddExpire "new" Hour (20 * Second)).1 = none ∧
      (Hour = -1 ∨ 0 ≤ Hour) ∧
      ((staleRedis.StrSet "set").AddExpire "new" Hour (20 * Second)).2.zsets "set" =
        [("new", .fin 3620)] ∧
      (∀ e ∈ ((staleRedis.StrSet "set").AddExpire "new" Hour (20 * Second)).2.zsets "set",
        e.2.geInt (unix (20 * Second)) = true) ∧
      (∀ e ∈ ((staleRedis.StrSet "set").Add "new" (20 * Second)).2.zsets "set",
        e.2.geInt (unix (20 * Second)) = true) :=
  ⟨rfl, by decide, by decide,
    (add_purges_reads_keep staleRedis "set" "new" Hour (20 * Second)).1 rfl (by decide),
    (add_purges_reads_keep staleRedis "set" "new" (-1) (20 * Second)).2.1 rfl⟩

end Gatekeeper
